import Mathlib

/-!
Verification of the framing-control analyzer (`libanalyzer.py`).

Python strings are modelled as lists of characters (`Str`), so the string
operations the analyzer relies on (`split`, `strip`, `lower`, `startswith`,
`endswith`, `join`) become executable list functions with provable equations.
Each definition below mirrors a function of the source file of the same name.
-/

/-- Python strings are modelled as lists of characters. -/
abbrev Str := List Char

/-- Helper turning a Lean string literal into the `Str` model. -/
def str (s : String) : Str := s.data

/-- Model of Python `str.lower()` (the analyzer only deals with ASCII data). -/
def lower (s : Str) : Str := s.map Char.toLower

/-- The characters Python's `str.strip()` / `str.split()` treat as whitespace. -/
def isPyWS (c : Char) : Bool :=
  c = ' ' || c = '\t' || c = '\n' || c = '\r' || c = '\x0b' || c = '\x0c'

/-- Model of Python `str.strip()`: drop leading and trailing whitespace. -/
def trimPy (s : Str) : Str :=
  ((s.dropWhile isPyWS).reverse.dropWhile isPyWS).reverse

/-- Model of Python `str.split(sep)` for a one-character separator `c`:
split at every occurrence of `c`, keeping empty chunks. -/
def splitOnChar (c : Char) : Str → List Str
  | [] => [[]]
  | x :: xs =>
    match splitOnChar c xs with
    | [] => [[]]
    | r :: rs => if x = c then [] :: r :: rs else (x :: r) :: rs

/-- Splitting a string at a predicate, keeping empty chunks
(auxiliary for the model of no-argument `str.split()`). -/
def splitOnWS : Str → List Str
  | [] => [[]]
  | x :: xs =>
    match splitOnWS xs with
    | [] => [[]]
    | r :: rs => if isPyWS x then [] :: r :: rs else (x :: r) :: rs

/-- Model of Python's no-argument `str.split()`: split on whitespace runs,
discarding empty chunks. -/
def splitPy (s : Str) : List Str :=
  (splitOnWS s).filter (fun t => t ≠ [])

/-- Model of Python `sep.join(xs)` for a one-character separator. -/
def interChar (c : Char) : List Str → Str
  | [] => []
  | [a] => a
  | a :: b :: rest => a ++ c :: interChar c (b :: rest)

/-- The characters Python's `urllib.parse` accepts inside a URL scheme. -/
def schemeChar (c : Char) : Bool :=
  c.isAlpha || c.isDigit || c = '+' || c = '-' || c = '.'

/-- Modelled from Python's `urllib.parse.ParseResult`: the two components the
analyzer reads (`scheme` and the network location from which `.hostname` is
derived). The other components (path, query, fragment) are never used. -/
structure ParseResult where
  scheme : Str
  netloc : Str
deriving DecidableEq, Repr

/-- Modelled from Python's `urllib.parse.urlparse`, restricted to the behaviour
the analyzer exercises: an initial run of scheme characters followed by `:`
is the (lower-cased) scheme; a netloc is present only after `//` and extends
to the first `/`, `?` or `#`. IPv6 bracket syntax is not modelled. -/
def urlparse (url : Str) : ParseResult :=
  let pre := url.takeWhile (fun c => c ≠ ':')
  let (scheme, rest) :=
    if pre.length < url.length ∧ pre ≠ [] ∧ pre.all schemeChar
    then (lower pre, url.drop (pre.length + 1))
    else ([], url)
  let netloc :=
    if (str "//").isPrefixOf rest
    then (rest.drop 2).takeWhile (fun c => c ≠ '/' && c ≠ '?' && c ≠ '#')
    else []
  ⟨scheme, netloc⟩

/-- Modelled from Python's `ParseResult.hostname` property: strip the userinfo
(everything up to the last `@`), cut at the first `:` (port), lower-case;
an empty host is reported as `None`. -/
def hostname (u : ParseResult) : Option Str :=
  let hostinfo := (u.netloc.reverse.takeWhile (fun c => c ≠ '@')).reverse
  let host := hostinfo.takeWhile (fun c => c ≠ ':')
  if host = [] then none else some (lower host)

/-- Mirrors `is_valid_origin` (libanalyzer.py lines 5-19). When the hostname is
`None`, Python evaluates `None != ''` (true) and then `None.startswith`, which
raises `AttributeError`; the surrounding `try` catches it and returns `False`,
hence the `none` branch below. -/
def is_valid_origin (uo : ParseResult) : Bool :=
  match hostname uo with
  | none => false
  | some h =>
    (decide (uo.scheme = str "http") || decide (uo.scheme = str "https")) &&
      (decide (h ≠ []) && !(str "*.").isPrefixOf h)

/-- Mirrors the protocol-relative fixup shared by `normalize_xfo` (lines 40-41)
and `normalize_csp` (lines 85-86): a page origin starting with `//` gets the
`https:` scheme prepended. -/
def fix_origin (o : Str) : Str :=
  if (str "//").isPrefixOf o then str "https:" ++ o else o

/-- Normalized XFO outcome: the values `normalize_xfo` (lines 32-63) can
return. `"JUNK"`, `"DENY"` and `"ALLOW-JUNK"` are bare strings in Python;
`("SAMEORIGIN", (scheme, hostname))` and `("ALLOW-FROM", (scheme, hostname))`
are tagged pairs whose hostname component comes from `ParseResult.hostname`
and is therefore an `Option`. -/
inductive XFORes where
  | junk
  | deny
  | allowJunk
  | sameOrigin (scheme : Str) (host : Option Str)
  | allowFrom (scheme : Str) (host : Option Str)
deriving DecidableEq, Repr

/-- A policy expression as stored in the normalized CSP lists: the Python
values `'*'`, `'none'` and `(scheme, host)` pairs (the host coming either from
`ParseResult.hostname`, hence optional, or from a raw token). -/
inductive Exp where
  | star
  | none_
  | origin (scheme : Str) (host : Option Str)
deriving DecidableEq, Repr

/-- Result of `normalize_csp` (lines 76-112): the string `"JUNK"` on an
invalid page origin, or the list of normalized expressions. The translators
return values of this same shape (`pol["csp"][0]` can be `"JUNK"`). -/
inductive CSPResult where
  | junk
  | vals (l : List Exp)
deriving DecidableEq, Repr

/-- Per-archetype bundle of raw header values: `p['xfo']` and `p['csp']`. -/
structure Bundle where
  xfo : List Str
  csp : List Str
deriving DecidableEq, Repr

/-- Mirrors `parse_xfo` (lines 22-29). -/
def parse_xfo (s : Str) : Option Str :=
  if s = str "WARN_NO_HEADER" then none else some (trimPy s)

/-- Mirrors `parse_csp` (lines 66-73): strip, then whitespace-split. -/
def parse_csp (s : Str) : Option (List Str) :=
  if s = str "WARN_NO_HEADER" then none else some (splitPy (trimPy s))

/-- Mirrors `normalize_xfo` (lines 32-63). The `tokens[1]` access is modelled
by `tokens[1]!`, which is reached exactly when the value starts with
`"allow-from "` (so at least two tokens exist, see the split-length theorem
below). -/
def normalize_xfo (v o : Str) : XFORes :=
  if ¬ is_valid_origin (urlparse (fix_origin o)) then .junk
  else if lower v = str "sameorigin" then
    .sameOrigin (urlparse (fix_origin o)).scheme (hostname (urlparse (fix_origin o)))
  else if lower v = str "deny" then .deny
  else if (str "allow-from ").isPrefixOf (lower v) then
    if (splitOnChar ' ' (lower v)).length = 2 ∧
        (splitOnChar ' ' (lower v))[0]! = str "allow-from" ∧
        is_valid_origin (urlparse (splitOnChar ' ' (lower v))[1]!)
    then .allowFrom (urlparse (splitOnChar ' ' (lower v))[1]!).scheme
          (hostname (urlparse (splitOnChar ' ' (lower v))[1]!))
    else .allowJunk
  else .junk

/-- Mirrors `normalize_csp` (lines 76-112): on a valid page origin, each
token is lower-cased and dispatched; a token with a scheme keeps its parsed
scheme and hostname, a scheme-less token becomes a host under the page's
scheme. -/
def normalize_csp (v : List Str) (o : Str) : CSPResult :=
  if ¬ is_valid_origin (urlparse (fix_origin o)) then .junk
  else
    .vals (v.map (fun e =>
      if lower e = str "*" then Exp.star
      else if lower e = str "'none'" then Exp.none_
      else if lower e = str "'self'" then
        Exp.origin (urlparse (fix_origin o)).scheme (hostname (urlparse (fix_origin o)))
      else if lower e = str "http:" then Exp.origin (str "http") (some (str "*"))
      else if lower e = str "https:" then Exp.origin (str "https") (some (str "*"))
      else if (urlparse (lower e)).scheme = [] then
        Exp.origin (urlparse (fix_origin o)).scheme (some (lower e))
      else Exp.origin (urlparse (lower e)).scheme (hostname (urlparse (lower e)))))

/-- Mirrors `leq_host` (lines 323-341) lifted to optional hosts, as a total
projection: the `none/some` and `some/none` fallthrough returns `false` where
Python raises `AttributeError` (`None.split('.')`). That raising path is
reachable: `normalize_csp` yields `(scheme, None)` expressions for tokens
with a scheme but no netloc (such as `http:/x`), and comparing one against a
same-scheme present non-wildcard host executes `None.split`. The
exception-faithful model is `leq_host_opt` below (`none` models the raise);
`leq_host_opt_agrees` proves the two agree on every input where Python
returns, so this projection is exact wherever the program yields a value;
statements about the raising behaviour itself are settled against
`leq_host_opt`. -/
def leq_host (h1 h2 : Option Str) : Bool :=
  if h1 = h2 then true
  else if h2 = some (str "*") then true
  else if h1 = some (str "*") then false
  else
    match h1, h2 with
    | some a, some b =>
      let tokens1 := splitOnChar '.' a
      let tokens2 := splitOnChar '.' b
      if tokens1[0]! = str "*" then
        decide (tokens2[0]! = str "*") &&
          List.isSuffixOf ('.' :: interChar '.' tokens2.tail) a
      else if tokens2[0]! = str "*" then
        List.isSuffixOf ('.' :: interChar '.' tokens2.tail) a
      else false
    | _, _ => false

/-- Mirrors `leq_exp` (lines 344-360). After the equality, wildcard and
`'none'` branches both arguments must be `(scheme, host)` pairs, so the
final catch-all is unreachable. Inherits the collapsed error path of
`leq_host`; the exception-faithful counterpart is `leq_exp_opt`. -/
def leq_exp (e1 e2 : Exp) : Bool :=
  if e1 = e2 then true
  else if e2 = .star then true
  else if e1 = .star then false
  else if e2 = .none_ then false
  else if e1 = .none_ then true
  else
    match e1, e2 with
    | .origin s1 h1, .origin s2 h2 => decide (s1 = s2) && leq_host h1 h2
    | _, _ => false

/-- Mirrors `leq_val` (lines 363-376): every expression of `v1` is below some
expression of `v2` (the Python `found` flag is an existential scan). Inherits
the collapsed error path of `leq_host`; the exception-faithful counterpart is
`leq_val_opt`. -/
def leq_val (v1 v2 : List Exp) : Bool :=
  v1.all (fun e1 => v2.any (fun e2 => leq_exp e1 e2))

/-- Mirrors `meet` (lines 379-389). Inherits the collapsed error path of
`leq_host`; the exception-faithful counterpart is `meet_opt`. -/
def meet (e1 e2 : Exp) : Exp :=
  if leq_exp e1 e2 then e1
  else if leq_exp e2 e1 then e2
  else .none_

/-- Exception-faithful model of `leq_host` (lines 323-341): `none` models the
`AttributeError` Python raises when `split` is called on a missing host.
The mixed `none/some` and `some/none` cases raise unless the earlier
equality or wildcard branches already returned. -/
def leq_host_opt (h1 h2 : Option Str) : Option Bool :=
  if h1 = h2 then some true
  else if h2 = some (str "*") then some true
  else if h1 = some (str "*") then some false
  else
    match h1, h2 with
    | some a, some b =>
      let tokens1 := splitOnChar '.' a
      let tokens2 := splitOnChar '.' b
      some (if tokens1[0]! = str "*" then
        decide (tokens2[0]! = str "*") &&
          List.isSuffixOf ('.' :: interChar '.' tokens2.tail) a
      else if tokens2[0]! = str "*" then
        List.isSuffixOf ('.' :: interChar '.' tokens2.tail) a
      else false)
    | _, _ => none

/-- Exception-faithful model of `leq_exp` (lines 344-360): Python's final
`e1[0] == e2[0] and leq_host(e1[1], e2[1])` short-circuits, so a raise in
`leq_host` surfaces only when the schemes are equal. -/
def leq_exp_opt (e1 e2 : Exp) : Option Bool :=
  if e1 = e2 then some true
  else if e2 = .star then some true
  else if e1 = .star then some false
  else if e2 = .none_ then some false
  else if e1 = .none_ then some true
  else
    match e1, e2 with
    | .origin s1 h1, .origin s2 h2 =>
      if s1 = s2 then leq_host_opt h1 h2 else some false
    | _, _ => some false

/-- Exception-faithful model of `meet` (lines 379-389): a raise in either
`leq_exp` call propagates (the second call is evaluated only when the first
returned `False`). -/
def meet_opt (e1 e2 : Exp) : Option Exp :=
  match leq_exp_opt e1 e2 with
  | none => none
  | some true => some e1
  | some false =>
    match leq_exp_opt e2 e1 with
    | none => none
    | some true => some e2
    | some false => some Exp.none_

/-- Exception-faithful model of the inner loop of `leq_val` (lines 369-373):
the `found` flag accumulates over every element of `v2` — the loop has no
break — so a raise at any position aborts the whole scan. -/
def scan_exp (e1 : Exp) : List Exp → Option Bool
  | [] => some false
  | e2 :: rest =>
    match leq_exp_opt e1 e2 with
    | none => none
    | some b => (scan_exp e1 rest).map (fun f => b || f)

/-- Exception-faithful model of `leq_val` (lines 363-376) on expression
lists: the outer loop returns `False` early when an element finds no
counterpart, and a raise in the inner scan propagates. -/
def leq_val_opt : List Exp → List Exp → Option Bool
  | [], _ => some true
  | e1 :: rest, v2 =>
    match scan_exp e1 v2 with
    | none => none
    | some false => some false
    | some true => leq_val_opt rest v2

/-- The normalized modern-header values a translator collects: the body of the
`for c in p['csp']` loops shared verbatim by `t_firefox` (134-137), `t_chrome`
(175-178) and `t_edge` (238-241). -/
def modern_values (p : Bundle) (orig : Str) : List CSPResult :=
  p.csp.filterMap (fun c => (parse_csp c).map (fun pc => normalize_csp pc orig))

/-- The normalized legacy-header values for the archetypes that first split
every raw value on commas: `t_firefox` (126-131) and `t_chrome` (167-172). -/
def legacy_values_split (p : Bundle) (orig : Str) : List XFORes :=
  ((p.xfo.map (splitOnChar ',')).flatten).filterMap
    (fun x => (parse_xfo x).map (fun px => normalize_xfo px orig))

/-- The normalized legacy-header values without comma splitting: `t_edge`
(244-247), `t_explorer` (277-280) and `t_opera_mini` (208-211). -/
def legacy_values (p : Bundle) (orig : Str) : List XFORes :=
  p.xfo.filterMap (fun x => (parse_xfo x).map (fun px => normalize_xfo px orig))

/-- One step of the Firefox legacy fold (lines 144-150). -/
def ff_step (res : Exp) (x : XFORes) : Exp :=
  match x with
  | .junk => meet res .star
  | .deny => meet res .none_
  | .allowJunk => meet res .none_
  | .sameOrigin s h => meet res (.origin s h)
  | .allowFrom s h => meet res (.origin s h)

/-- One step of the Chrome-family legacy fold (lines 185-191): `ALLOW-FROM`
and both junk forms count as the wildcard. -/
def chrome_step (res : Exp) (x : XFORes) : Exp :=
  match x with
  | .junk => meet res .star
  | .allowJunk => meet res .star
  | .allowFrom _ _ => meet res .star
  | .deny => meet res .none_
  | .sameOrigin s h => meet res (.origin s h)

/-- The Edge / Internet Explorer first-value rule (lines 255-260, 285-290). -/
def first_rule_edge (x : XFORes) : Exp :=
  match x with
  | .junk => .star
  | .deny => .none_
  | .allowJunk => .none_
  | .sameOrigin s h => .origin s h
  | .allowFrom s h => .origin s h

/-- The Opera Mini first-value rule (lines 216-221): `ALLOW-FROM` and both
junk forms count as the wildcard. -/
def first_rule_opera (x : XFORes) : Exp :=
  match x with
  | .junk => .star
  | .allowJunk => .star
  | .allowFrom _ _ => .star
  | .deny => .none_
  | .sameOrigin s h => .origin s h

/-- Mirrors `t_firefox` (lines 115-153). -/
def t_firefox (p : Bundle) (orig : Str) : CSPResult :=
  match modern_values p orig with
  | r :: _ => r
  | [] =>
    match legacy_values_split p orig with
    | [] => .vals [Exp.star]
    | polXfo => .vals [polXfo.foldl ff_step Exp.star]

/-- Mirrors `t_chrome` (lines 156-194). -/
def t_chrome (p : Bundle) (orig : Str) : CSPResult :=
  match modern_values p orig with
  | r :: _ => r
  | [] =>
    match legacy_values_split p orig with
    | [] => .vals [Exp.star]
    | polXfo => .vals [polXfo.foldl chrome_step Exp.star]

/-- Mirrors `t_edge` (lines 227-263). -/
def t_edge (p : Bundle) (orig : Str) : CSPResult :=
  match modern_values p orig with
  | r :: _ => r
  | [] =>
    match legacy_values p orig with
    | [] => .vals [Exp.star]
    | x :: _ => .vals [first_rule_edge x]

/-- Mirrors `t_explorer` (lines 266-293); it never reads `p['csp']`. -/
def t_explorer (p : Bundle) (orig : Str) : CSPResult :=
  match legacy_values p orig with
  | [] => .vals [Exp.star]
  | x :: _ => .vals [first_rule_edge x]

/-- Mirrors `t_opera_mini` (lines 197-224); it never reads `p['csp']`. -/
def t_opera_mini (p : Bundle) (orig : Str) : CSPResult :=
  match legacy_values p orig with
  | [] => .vals [Exp.star]
  | x :: _ => .vals [first_rule_opera x]

def FIREFOX_UA : Str :=
  str "Mozilla/5.0 (Windows NT 10.0; Win64; x64; rv:67.0) Gecko/20100101 Firefox/67.0"

def CHROME_UA : Str :=
  str "Mozilla/5.0 (Windows NT 10.0; Win64; x64) AppleWebKit/537.36 (KHTML, like Gecko) Chrome/77.0.3865.75 Safari/537.36"

def SAFARI_UA : Str :=
  str "Mozilla/5.0 (Macintosh; Intel Mac OS X 10_14_4) AppleWebKit/605.1.15 (KHTML, like Gecko) Version/12.1 Safari/605.1.15"

def SAFARI_IOS_UA : Str :=
  str "Mozilla/5.0 (iPhone; CPU iPhone OS 12_4 like Mac OS X) AppleWebKit/605.1.15 (KHTML, like Gecko) Version/12.1.2 Mobile/15E148 Safari/604.1"

def SAMSUNG_UA : Str :=
  str "Mozilla/5.0 (Linux; Android 9; SAMSUNG SM-G960U Build/PPR1.180610.011) AppleWebKit/537.36 (KHTML, like Gecko) SamsungBrowser/9.4 Chrome/67.0.3396.87 Mobile Safari/537.36"

def UC_UA : Str :=
  str "Mozilla/5.0 (Linux; U; Android 7.0; es-LA; Moto C Build/NRD90M.068) AppleWebKit/537.36 (KHTML, like Gecko) Version/4.0 Chrome/57.0.2987.108 UCBrowser/12.9.5.1146 Mobile Safari/537.36"

def IE_UA : Str :=
  str "Mozilla/5.0 (Windows NT 6.1; WOW64; Trident/7.0; rv:11.0) like Gecko"

def OPERA_UA : Str :=
  str "Opera/9.80 (Android; Opera Mini/12.0.1987/37.7327; U; pl) Presto/2.12.423 Version/12.16"

def EDGE_UA : Str :=
  str "Mozilla/5.0 (Windows NT 10.0; Win64; x64) AppleWebKit/537.36 (KHTML, like Gecko) Chrome/64.0.3282.140 Safari/537.36 Edge/18.17763"

/-- Mirrors `translate` (lines 296-320); named `translate_ua` because Lean's
library already declares `translate`. The unknown-browser branch calls
`sys.exit()` in Python; here it is the `none` result, which aborts
`find_inconsistencies` just as the exit would. -/
def translate_ua (p : Bundle) (b : Str) (orig : Str) : Option CSPResult :=
  if b = FIREFOX_UA then some (t_firefox p orig)
  else if b ∈ [CHROME_UA, SAFARI_UA, SAFARI_IOS_UA, SAMSUNG_UA, UC_UA] then
    some (t_chrome p orig)
  else if b = IE_UA then some (t_explorer p orig)
  else if b = OPERA_UA then some (t_opera_mini p orig)
  else if b = EDGE_UA then some (t_edge p orig)
  else none

/-- Mirrors `just_xfo` (lines 392-398). -/
def just_xfo (b : Str) : Bool :=
  b ∈ [IE_UA, OPERA_UA]

/-- The report built by `find_inconsistencies`: the deduplicated per-bucket
translator results (`semantics["xfo"]` and `semantics["csp"]`). -/
structure Report where
  xfo : List CSPResult
  csp : List CSPResult
deriving DecidableEq, Repr

/-- Mirrors the duplicate-removal loops of `find_inconsistencies`
(lines 430-436): keep the first occurrence of each value. -/
def no_dup (l : List CSPResult) : List CSPResult :=
  l.foldl (fun acc x => if x ∈ acc then acc else acc ++ [x]) []

/-- Mirrors `find_inconsistencies` (lines 401-438). The policy mapping is an
association list in browser-key insertion order (Python dict keys are unique).
Legacy-only browsers are visited first, then the others, and each result is
appended to its bucket, so filtering the ordered results by bucket reproduces
the Python append order. A `none` result models the `sys.exit()` reached on
an unknown browser. -/
def find_inconsistencies (p : List (Str × Bundle)) (orig : Str) : Option Report :=
  let ordered := p.filter (fun q => just_xfo q.1) ++ p.filter (fun q => ¬ just_xfo q.1)
  match ordered.mapM (fun q => (translate_ua q.2 q.1 orig).map (fun v => (just_xfo q.1, v))) with
  | none => none
  | some results =>
    some ⟨no_dup ((results.filter (fun r => r.1)).map Prod.snd),
          no_dup ((results.filter (fun r => ¬ r.1)).map Prod.snd)⟩

/-- An element as it flows through `leq_val` when `is_inconsistent` compares
raw translator results: either a proper policy expression, or a one-character
string obtained by iterating over the string `"JUNK"`. -/
inductive PyExp where
  | exp (e : Exp)
  | chr (c : Char)
deriving DecidableEq, Repr

/-- Python `==` on the values `PyExp` represents. It is structural equality
except that a one-character string equals the expression `'*'` exactly when
the character is `*` (both are Python strings). -/
def pyEq (a b : PyExp) : Bool :=
  match a, b with
  | .exp e1, .exp e2 => e1 = e2
  | .chr c, .chr d => c = d
  | .chr c, .exp .star => c = '*'
  | .exp .star, .chr c => c = '*'
  | _, _ => false

/-- `leq_exp` (lines 344-360) as executed on raw comparison elements. The
final catch-all covers the pairs where at least one side is a one-character
string: Python evaluates `e1[0] == e2[0]`, which is false whenever the other
side's scheme differs from that character (schemes are lower-cased by
`urlparse` while the characters of `"JUNK"` are upper-case, so the equality
always fails and the short-circuit prevents the out-of-range `e1[1]`). -/
def leq_exp_py (e1 e2 : PyExp) : Bool :=
  if pyEq e1 e2 then true
  else if pyEq e2 (.exp .star) then true
  else if pyEq e1 (.exp .star) then false
  else if pyEq e2 (.exp .none_) then false
  else if pyEq e1 (.exp .none_) then true
  else
    match e1, e2 with
    | .exp (.origin s1 h1), .exp (.origin s2 h2) => decide (s1 = s2) && leq_host h1 h2
    | _, _ => false

/-- The element sequence Python's `for e in v` yields on a raw translator
result: the expressions of a list, or the characters of the string `"JUNK"`. -/
def pyElems : CSPResult → List PyExp
  | .junk => (str "JUNK").map PyExp.chr
  | .vals l => l.map PyExp.exp

/-- `leq_val` (lines 363-376) as executed on raw translator results. -/
def leq_val_py (v1 v2 : CSPResult) : Bool :=
  (pyElems v1).all (fun e1 => (pyElems v2).any (fun e2 => leq_exp_py e1 e2))

/-- Mirrors `is_inconsistent` (lines 441-454); `s["xfo"][0]`/`s["csp"][0]`
exist exactly in the singleton match arm. -/
def is_inconsistent (s : Report) : Bool :=
  if 1 < s.xfo.length ∨ 1 < s.csp.length then true
  else
    match s.xfo, s.csp with
    | [v1], [v2] => !leq_val_py v1 v2 || !leq_val_py v2 v1
    | _, _ => false

/-- The Scenario B policy mapping: Internet Explorer and Opera Mini receive
the legacy header `allow-from https://google.com` and no modern header;
the Chrome-family archetype receives the modern header `*`. -/
def scenarioB : List (Str × Bundle) :=
  [(IE_UA, ⟨[str "allow-from https://google.com"], []⟩),
   (OPERA_UA, ⟨[str "allow-from https://google.com"], []⟩),
   (CHROME_UA, ⟨[], [str "*"]⟩)]

/-- The report Scenario B produces: the legacy bucket holds the two distinct
values `[{https, google.com}]` (Internet Explorer) and `[Wildcard]`
(Opera Mini), the modern bucket the single value `[Wildcard]`. -/
def reportB : Report :=
  ⟨[CSPResult.vals [Exp.origin (str "https") (some (str "google.com"))],
    CSPResult.vals [Exp.star]],
   [CSPResult.vals [Exp.star]]⟩

theorem urlparse_example : urlparse (str "https://Example.com") =
    ⟨str "https", str "Example.com"⟩ := by decide

theorem hostname_example :
    hostname (urlparse (str "https://example.com")) = some (str "example.com") := by decide

theorem valid_example :
    is_valid_origin (urlparse (str "https://example.com")) = true := by decide

theorem invalid_example :
    is_valid_origin (urlparse (str "example.com")) = false := by decide

theorem interChar_nil (c : Char) : interChar c [] = [] := rfl

theorem interChar_one (c : Char) (a : Str) : interChar c [a] = a := rfl

theorem interChar_cons (c : Char) (a b : Str) (rest : List Str) :
    interChar c (a :: b :: rest) = a ++ c :: interChar c (b :: rest) := rfl

theorem splitOnChar_ne_nil (c : Char) (l : Str) : splitOnChar c l ≠ [] := by
  cases l with
  | nil => simp [splitOnChar]
  | cons x xs =>
    simp only [splitOnChar]
    cases h : splitOnChar c xs with
    | nil => simp
    | cons r rs => by_cases hx : x = c <;> simp [hx]

theorem interChar_splitOnChar (c : Char) (l : Str) :
    interChar c (splitOnChar c l) = l := by
  induction l with
  | nil => rfl
  | cons x xs ih =>
    cases h : splitOnChar c xs with
    | nil => exact absurd h (splitOnChar_ne_nil c xs)
    | cons r rs =>
      rw [h] at ih
      by_cases hx : x = c
      · subst hx
        simp only [splitOnChar, h, eq_self_iff_true, if_true]
        rw [interChar_cons]
        simpa using ih
      · simp only [splitOnChar, h, if_neg hx]
        cases rs with
        | nil => simpa [interChar_one] using ih
        | cons r2 rs2 =>
          rw [interChar_cons]
          rw [interChar_cons] at ih
          simpa using ih

theorem splitOnChar_append (c : Char) (a b : Str) (ha : c ∉ a) :
    splitOnChar c (a ++ c :: b) = a :: splitOnChar c b := by
  induction a with
  | nil =>
    simp only [List.nil_append, splitOnChar]
    cases h : splitOnChar c b with
    | nil => exact absurd h (splitOnChar_ne_nil c b)
    | cons r rs => simp
  | cons x xs ih =>
    have hx : x ≠ c := by
      intro e; exact ha (e ▸ List.mem_cons_self x xs)
    have ih' := ih (fun m => ha (List.mem_cons_of_mem x m))
    simp only [List.cons_append, splitOnChar, List.append_eq, ih', if_neg hx]

theorem splitOnChar_head_star (a : Str) (hne : a ≠ str "*")
    (hhead : (splitOnChar '.' a)[0]! = str "*") :
    ∃ T, a = '*' :: '.' :: T ∧ interChar '.' (splitOnChar '.' a).tail = T := by
  cases h : splitOnChar '.' a with
  | nil => exact absurd h (splitOnChar_ne_nil '.' a)
  | cons r rs =>
    have hr : r = str "*" := by rw [h] at hhead; simpa using hhead
    have hrt := interChar_splitOnChar '.' a
    rw [h, hr] at hrt
    cases rs with
    | nil =>
      rw [interChar_one] at hrt
      exact absurd hrt.symm hne
    | cons r2 rs2 =>
      rw [interChar_cons] at hrt
      refine ⟨interChar '.' (r2 :: rs2), ?_, by simp [h]⟩
      rw [← hrt]; rfl

theorem star_suffix_asymm (T1 T2 : Str)
    (h12 : ('.' :: T2) <:+ ('*' :: '.' :: T1))
    (h21 : ('.' :: T1) <:+ ('*' :: '.' :: T2)) : T1 = T2 := by
  obtain ⟨p, hp⟩ := h12
  cases p with
  | nil =>
    rw [List.nil_append] at hp
    injection hp with hc _
    exact absurd hc (by decide)
  | cons x p' =>
    cases p' with
    | nil =>
      rw [List.singleton_append] at hp
      injection hp with _ hp2
      injection hp2 with _ hT
      exact hT.symm
    | cons y p'' =>
      rw [List.cons_append, List.cons_append] at hp
      injection hp with _ hp2
      injection hp2 with _ hT1
      obtain ⟨q, hq⟩ := h21
      rw [← hT1] at hq
      have hlen := congrArg List.length hq
      simp only [List.length_append, List.length_cons] at hlen
      have hq0 : q = [] := List.eq_nil_of_length_eq_zero (by omega)
      have hp0 : p'' = [] := List.eq_nil_of_length_eq_zero (by omega)
      rw [hq0, hp0] at hq
      rw [List.nil_append, List.nil_append] at hq
      injection hq with hc _
      exact absurd hc (by decide)

theorem leq_host_none_some (b : Str) (hbs : b ≠ str "*") :
    leq_host none (some b) = false := by
  unfold leq_host
  rw [if_neg (by simp), if_neg (by simpa using hbs), if_neg (by simp)]

theorem leq_host_some_none (a : Str) (has : a ≠ str "*") :
    leq_host (some a) none = false := by
  unfold leq_host
  rw [if_neg (by simp), if_neg (by simp), if_neg (by simpa using has)]

theorem leq_host_some_some (a b : Str) (hne : a ≠ b) (hbs : b ≠ str "*")
    (has : a ≠ str "*") :
    leq_host (some a) (some b) =
      (if (splitOnChar '.' a)[0]! = str "*" then
        decide ((splitOnChar '.' b)[0]! = str "*") &&
          List.isSuffixOf ('.' :: interChar '.' (splitOnChar '.' b).tail) a
      else if (splitOnChar '.' b)[0]! = str "*" then
        List.isSuffixOf ('.' :: interChar '.' (splitOnChar '.' b).tail) a
      else false) := by
  unfold leq_host
  rw [if_neg (by simpa using hne), if_neg (by simpa using hbs),
    if_neg (by simpa using has)]

theorem leq_host_antisymm (h1 h2 : Option Str)
    (l12 : leq_host h1 h2 = true) (l21 : leq_host h2 h1 = true) : h1 = h2 := by
  by_cases heq : h1 = h2
  · exact heq
  have hne' : h2 ≠ h1 := fun e => heq e.symm
  by_cases h2s : h2 = some (str "*")
  · by_cases h1s : h1 = some (str "*")
    · exact h1s.trans h2s.symm
    · unfold leq_host at l21
      rw [if_neg hne', if_neg h1s, if_pos h2s] at l21
      simp at l21
  by_cases h1s : h1 = some (str "*")
  · unfold leq_host at l12
    rw [if_neg heq, if_neg h2s, if_pos h1s] at l12
    simp at l12
  cases h1 with
  | none =>
    cases h2 with
    | none => rfl
    | some b =>
      have hbne : b ≠ str "*" := fun e => h2s (by rw [e])
      rw [leq_host_none_some b hbne] at l12
      simp at l12
  | some a =>
    have hane : a ≠ str "*" := fun e => h1s (by rw [e])
    cases h2 with
    | none =>
      rw [leq_host_some_none a hane] at l12
      simp at l12
    | some b =>
      have hbne : b ≠ str "*" := fun e => h2s (by rw [e])
      have hab : a ≠ b := fun e => heq (by rw [e])
      have hba : b ≠ a := fun e => hab e.symm
      rw [leq_host_some_some a b hab hbne hane] at l12
      rw [leq_host_some_some b a hba hane hbne] at l21
      by_cases ha1 : (splitOnChar '.' a)[0]! = str "*"
      · rw [if_pos ha1, Bool.and_eq_true] at l12
        obtain ⟨hb1', hsuf1⟩ := l12
        have hb1 : (splitOnChar '.' b)[0]! = str "*" := of_decide_eq_true hb1'
        rw [if_pos hb1, Bool.and_eq_true] at l21
        obtain ⟨_, hsuf2⟩ := l21
        obtain ⟨T1, haT, htail1⟩ := splitOnChar_head_star a hane ha1
        obtain ⟨T2, hbT, htail2⟩ := splitOnChar_head_star b hbne hb1
        rw [List.isSuffixOf_iff_suffix, htail2, haT] at hsuf1
        rw [List.isSuffixOf_iff_suffix, htail1, hbT] at hsuf2
        have hT : T1 = T2 := star_suffix_asymm T1 T2 hsuf1 hsuf2
        rw [haT, hbT, hT]
      · by_cases hb1 : (splitOnChar '.' b)[0]! = str "*"
        · rw [if_pos hb1, Bool.and_eq_true] at l21
          exact absurd (of_decide_eq_true l21.1) ha1
        · rw [if_neg ha1, if_neg hb1] at l12
          simp at l12

theorem leq_exp_refl (e : Exp) : leq_exp e e = true := by
  unfold leq_exp
  rw [if_pos rfl]

theorem leq_exp_antisymm_aux (e1 e2 : Exp)
    (l12 : leq_exp e1 e2 = true) (l21 : leq_exp e2 e1 = true) : e1 = e2 := by
  by_cases heq : e1 = e2
  · exact heq
  have hne' : e2 ≠ e1 := fun e => heq e.symm
  by_cases h2s : e2 = .star
  · by_cases h1s : e1 = .star
    · exact h1s.trans h2s.symm
    · unfold leq_exp at l21
      rw [if_neg hne', if_neg h1s, if_pos h2s] at l21
      simp at l21
  by_cases h1s : e1 = .star
  · unfold leq_exp at l12
    rw [if_neg heq, if_neg h2s, if_pos h1s] at l12
    simp at l12
  by_cases h2n : e2 = .none_
  · unfold leq_exp at l12
    rw [if_neg heq, if_neg h2s, if_neg h1s, if_pos h2n] at l12
    simp at l12
  by_cases h1n : e1 = .none_
  · unfold leq_exp at l21
    rw [if_neg hne', if_neg h1s, if_neg h2s, if_pos h1n] at l21
    simp at l21
  cases e1 with
  | star => exact absurd rfl h1s
  | none_ => exact absurd rfl h1n
  | origin s1 o1 =>
    cases e2 with
    | star => exact absurd rfl h2s
    | none_ => exact absurd rfl h2n
    | origin s2 o2 =>
      unfold leq_exp at l12 l21
      rw [if_neg heq, if_neg h2s, if_neg h1s, if_neg h2n, if_neg h1n] at l12
      rw [if_neg hne', if_neg h1s, if_neg h2s, if_neg h1n, if_neg h2n] at l21
      have l12' : (decide (s1 = s2) && leq_host o1 o2) = true := l12
      have l21' : (decide (s2 = s1) && leq_host o2 o1) = true := l21
      rw [Bool.and_eq_true] at l12' l21'
      have hs : s1 = s2 := of_decide_eq_true l12'.1
      have ho : o1 = o2 := leq_host_antisymm o1 o2 l12'.2 l21'.2
      rw [hs, ho]

theorem meet_comm_aux (e1 e2 : Exp) : meet e1 e2 = meet e2 e1 := by
  unfold meet
  by_cases l12 : leq_exp e1 e2 = true
  · by_cases l21 : leq_exp e2 e1 = true
    · rw [if_pos l12, if_pos l21, leq_exp_antisymm_aux e1 e2 l12 l21]
    · rw [if_pos l12, if_neg l21, if_pos l12]
  · by_cases l21 : leq_exp e2 e1 = true
    · rw [if_neg l12, if_pos l21, if_pos l21]
    · rw [if_neg l12, if_neg l21, if_neg l21, if_neg l12]

theorem normalize_xfo_invalid (v orig : Str)
    (hinv : is_valid_origin (urlparse (fix_origin orig)) = false) :
    normalize_xfo v orig = .junk := by
  unfold normalize_xfo
  rw [if_pos (by simp [hinv])]

theorem normalize_csp_invalid (v : List Str) (orig : Str)
    (hinv : is_valid_origin (urlparse (fix_origin orig)) = false) :
    normalize_csp v orig = .junk := by
  unfold normalize_csp
  rw [if_pos (by simp [hinv])]

theorem legacy_values_all_junk (p : Bundle) (orig : Str)
    (hinv : is_valid_origin (urlparse (fix_origin orig)) = false) :
    ∀ x ∈ legacy_values p orig, x = .junk := by
  intro x hx
  unfold legacy_values at hx
  rw [List.mem_filterMap] at hx
  obtain ⟨a, _, ha⟩ := hx
  rw [Option.map_eq_some'] at ha
  obtain ⟨px, _, hnx⟩ := ha
  rw [normalize_xfo_invalid px orig hinv] at hnx
  exact hnx.symm

theorem legacy_values_split_all_junk (p : Bundle) (orig : Str)
    (hinv : is_valid_origin (urlparse (fix_origin orig)) = false) :
    ∀ x ∈ legacy_values_split p orig, x = .junk := by
  intro x hx
  unfold legacy_values_split at hx
  rw [List.mem_filterMap] at hx
  obtain ⟨a, _, ha⟩ := hx
  rw [Option.map_eq_some'] at ha
  obtain ⟨px, _, hnx⟩ := ha
  rw [normalize_xfo_invalid px orig hinv] at hnx
  exact hnx.symm

theorem ff_fold_all_junk (l : List XFORes) (h : ∀ x ∈ l, x = .junk) :
    l.foldl ff_step Exp.star = Exp.star := by
  induction l with
  | nil => rfl
  | cons a as ih =>
    rw [List.foldl_cons, h a (List.mem_cons_self a as)]
    have hstep : ff_step Exp.star XFORes.junk = Exp.star := by decide
    rw [hstep]
    exact ih (fun x hx => h x (List.mem_cons_of_mem a hx))

theorem chrome_fold_all_junk (l : List XFORes) (h : ∀ x ∈ l, x = .junk) :
    l.foldl chrome_step Exp.star = Exp.star := by
  induction l with
  | nil => rfl
  | cons a as ih =>
    rw [List.foldl_cons, h a (List.mem_cons_self a as)]
    have hstep : chrome_step Exp.star XFORes.junk = Exp.star := by decide
    rw [hstep]
    exact ih (fun x hx => h x (List.mem_cons_of_mem a hx))

theorem leq_host_opt_none_some (b : Str) (hbs : b ≠ str "*") :
    leq_host_opt none (some b) = none := by
  unfold leq_host_opt
  rw [if_neg (by simp), if_neg (by simpa using hbs), if_neg (by simp)]

theorem leq_host_opt_some_none (a : Str) (has : a ≠ str "*") :
    leq_host_opt (some a) none = none := by
  unfold leq_host_opt
  rw [if_neg (by simp), if_neg (by simp), if_neg (by simpa using has)]

theorem leq_host_opt_some_some (a b : Str) (hne : a ≠ b) (hbs : b ≠ str "*")
    (has : a ≠ str "*") :
    leq_host_opt (some a) (some b) =
      some (if (splitOnChar '.' a)[0]! = str "*" then
        decide ((splitOnChar '.' b)[0]! = str "*") &&
          List.isSuffixOf ('.' :: interChar '.' (splitOnChar '.' b).tail) a
      else if (splitOnChar '.' b)[0]! = str "*" then
        List.isSuffixOf ('.' :: interChar '.' (splitOnChar '.' b).tail) a
      else false) := by
  unfold leq_host_opt
  rw [if_neg (by simpa using hne), if_neg (by simpa using hbs),
    if_neg (by simpa using has)]

theorem leq_host_opt_agrees (h1 h2 : Option Str) (b : Bool)
    (h : leq_host_opt h1 h2 = some b) : leq_host h1 h2 = b := by
  by_cases heq : h1 = h2
  · unfold leq_host_opt at h
    rw [if_pos heq] at h
    injection h with hb
    unfold leq_host
    rw [if_pos heq]
    exact hb
  by_cases h2s : h2 = some (str "*")
  · unfold leq_host_opt at h
    rw [if_neg heq, if_pos h2s] at h
    injection h with hb
    unfold leq_host
    rw [if_neg heq, if_pos h2s]
    exact hb
  by_cases h1s : h1 = some (str "*")
  · unfold leq_host_opt at h
    rw [if_neg heq, if_neg h2s, if_pos h1s] at h
    injection h with hb
    unfold leq_host
    rw [if_neg heq, if_neg h2s, if_pos h1s]
    exact hb
  cases h1 with
  | none =>
    cases h2 with
    | none => exact absurd rfl heq
    | some b2 =>
      have hbs : b2 ≠ str "*" := fun e => h2s (by rw [e])
      rw [leq_host_opt_none_some b2 hbs] at h
      exact absurd h (by simp)
  | some a =>
    have has : a ≠ str "*" := fun e => h1s (by rw [e])
    cases h2 with
    | none =>
      rw [leq_host_opt_some_none a has] at h
      exact absurd h (by simp)
    | some b2 =>
      have hbs : b2 ≠ str "*" := fun e => h2s (by rw [e])
      have hab : a ≠ b2 := fun e => heq (by rw [e])
      rw [leq_host_opt_some_some a b2 hab hbs has] at h
      injection h with hb
      rw [leq_host_some_some a b2 hab hbs has]
      exact hb

theorem leq_host_opt_none_symm (h1 h2 : Option Str)
    (hn : leq_host_opt h1 h2 = none) : leq_host_opt h2 h1 = none := by
  by_cases heq : h1 = h2
  · unfold leq_host_opt at hn
    rw [if_pos heq] at hn
    exact absurd hn (by simp)
  by_cases h2s : h2 = some (str "*")
  · unfold leq_host_opt at hn
    rw [if_neg heq, if_pos h2s] at hn
    exact absurd hn (by simp)
  by_cases h1s : h1 = some (str "*")
  · unfold leq_host_opt at hn
    rw [if_neg heq, if_neg h2s, if_pos h1s] at hn
    exact absurd hn (by simp)
  cases h1 with
  | none =>
    cases h2 with
    | none => exact absurd rfl heq
    | some b2 =>
      have hbs : b2 ≠ str "*" := fun e => h2s (by rw [e])
      exact leq_host_opt_some_none b2 hbs
  | some a =>
    have has : a ≠ str "*" := fun e => h1s (by rw [e])
    cases h2 with
    | none => exact leq_host_opt_none_some a has
    | some b2 =>
      have hbs : b2 ≠ str "*" := fun e => h2s (by rw [e])
      have hab : a ≠ b2 := fun e => heq (by rw [e])
      rw [leq_host_opt_some_some a b2 hab hbs has] at hn
      exact absurd hn (by simp)

theorem leq_exp_opt_refl (e : Exp) : leq_exp_opt e e = some true := by
  unfold leq_exp_opt
  rw [if_pos rfl]

theorem leq_exp_opt_agrees (e1 e2 : Exp) (b : Bool)
    (h : leq_exp_opt e1 e2 = some b) : leq_exp e1 e2 = b := by
  by_cases heq : e1 = e2
  · unfold leq_exp_opt at h
    rw [if_pos heq] at h
    injection h with hb
    unfold leq_exp
    rw [if_pos heq]
    exact hb
  by_cases h2s : e2 = .star
  · unfold leq_exp_opt at h
    rw [if_neg heq, if_pos h2s] at h
    injection h with hb
    unfold leq_exp
    rw [if_neg heq, if_pos h2s]
    exact hb
  by_cases h1s : e1 = .star
  · unfold leq_exp_opt at h
    rw [if_neg heq, if_neg h2s, if_pos h1s] at h
    injection h with hb
    unfold leq_exp
    rw [if_neg heq, if_neg h2s, if_pos h1s]
    exact hb
  by_cases h2n : e2 = .none_
  · unfold leq_exp_opt at h
    rw [if_neg heq, if_neg h2s, if_neg h1s, if_pos h2n] at h
    injection h with hb
    unfold leq_exp
    rw [if_neg heq, if_neg h2s, if_neg h1s, if_pos h2n]
    exact hb
  by_cases h1n : e1 = .none_
  · unfold leq_exp_opt at h
    rw [if_neg heq, if_neg h2s, if_neg h1s, if_neg h2n, if_pos h1n] at h
    injection h with hb
    unfold leq_exp
    rw [if_neg heq, if_neg h2s, if_neg h1s, if_neg h2n, if_pos h1n]
    exact hb
  cases e1 with
  | star => exact absurd rfl h1s
  | none_ => exact absurd rfl h1n
  | origin s1 o1 =>
    cases e2 with
    | star => exact absurd rfl h2s
    | none_ => exact absurd rfl h2n
    | origin s2 o2 =>
      unfold leq_exp_opt at h
      rw [if_neg heq, if_neg h2s, if_neg h1s, if_neg h2n, if_neg h1n] at h
      have h' : (if s1 = s2 then leq_host_opt o1 o2 else some false) = some b := h
      unfold leq_exp
      rw [if_neg heq, if_neg h2s, if_neg h1s, if_neg h2n, if_neg h1n]
      show (decide (s1 = s2) && leq_host o1 o2) = b
      by_cases hs : s1 = s2
      · rw [if_pos hs] at h'
        rw [leq_host_opt_agrees o1 o2 b h']
        simp [hs]
      · rw [if_neg hs] at h'
        injection h' with hb
        rw [← hb]
        simp [hs]

theorem leq_exp_opt_none_symm (e1 e2 : Exp)
    (hn : leq_exp_opt e1 e2 = none) : leq_exp_opt e2 e1 = none := by
  by_cases heq : e1 = e2
  · unfold leq_exp_opt at hn
    rw [if_pos heq] at hn
    exact absurd hn (by simp)
  by_cases h2s : e2 = .star
  · unfold leq_exp_opt at hn
    rw [if_neg heq, if_pos h2s] at hn
    exact absurd hn (by simp)
  by_cases h1s : e1 = .star
  · unfold leq_exp_opt at hn
    rw [if_neg heq, if_neg h2s, if_pos h1s] at hn
    exact absurd hn (by simp)
  by_cases h2n : e2 = .none_
  · unfold leq_exp_opt at hn
    rw [if_neg heq, if_neg h2s, if_neg h1s, if_pos h2n] at hn
    exact absurd hn (by simp)
  by_cases h1n : e1 = .none_
  · unfold leq_exp_opt at hn
    rw [if_neg heq, if_neg h2s, if_neg h1s, if_neg h2n, if_pos h1n] at hn
    exact absurd hn (by simp)
  cases e1 with
  | star => exact absurd rfl h1s
  | none_ => exact absurd rfl h1n
  | origin s1 o1 =>
    cases e2 with
    | star => exact absurd rfl h2s
    | none_ => exact absurd rfl h2n
    | origin s2 o2 =>
      unfold leq_exp_opt at hn
      rw [if_neg heq, if_neg h2s, if_neg h1s, if_neg h2n, if_neg h1n] at hn
      have hn' : (if s1 = s2 then leq_host_opt o1 o2 else some false) = none := hn
      unfold leq_exp_opt
      rw [if_neg (fun e => heq e.symm), if_neg h1s, if_neg h2s, if_neg h1n, if_neg h2n]
      show (if s2 = s1 then leq_host_opt o2 o1 else some false) = none
      by_cases hs : s1 = s2
      · rw [if_pos hs] at hn'
        rw [if_pos hs.symm]
        exact leq_host_opt_none_symm o1 o2 hn'
      · rw [if_neg hs] at hn'
        exact absurd hn' (by simp)

theorem meet_opt_eq_some (e1 e2 : Exp) (b12 b21 : Bool)
    (h12 : leq_exp_opt e1 e2 = some b12) (h21 : leq_exp_opt e2 e1 = some b21) :
    meet_opt e1 e2 = some (meet e1 e2) := by
  have t12 := leq_exp_opt_agrees e1 e2 b12 h12
  have t21 := leq_exp_opt_agrees e2 e1 b21 h21
  cases b12 with
  | true => simp [meet_opt, meet, h12, t12]
  | false =>
    cases b21 with
    | true => simp [meet_opt, meet, h12, h21, t12, t21]
    | false => simp [meet_opt, meet, h12, h21, t12, t21]

theorem meet_opt_comm_aux (e1 e2 : Exp) : meet_opt e1 e2 = meet_opt e2 e1 := by
  cases h12 : leq_exp_opt e1 e2 with
  | none =>
    have h21 := leq_exp_opt_none_symm e1 e2 h12
    unfold meet_opt
    rw [h12, h21]
  | some b12 =>
    cases h21 : leq_exp_opt e2 e1 with
    | none =>
      have hcontra := leq_exp_opt_none_symm e2 e1 h21
      rw [h12] at hcontra
      exact absurd hcontra (by simp)
    | some b21 =>
      rw [meet_opt_eq_some e1 e2 b12 b21 h12 h21,
        meet_opt_eq_some e2 e1 b21 b12 h21 h12, meet_comm_aux e1 e2]

theorem scan_exp_self (e : Exp) :
    ∀ v2 : List Exp, e ∈ v2 → ∀ f : Bool, scan_exp e v2 = some f → f = true := by
  intro v2
  induction v2 with
  | nil => intro hmem; cases hmem
  | cons e2 rest ih =>
    intro hmem f h
    unfold scan_exp at h
    cases hle : leq_exp_opt e e2 with
    | none =>
      rw [hle] at h
      exact absurd h (by simp)
    | some b =>
      rw [hle] at h
      cases hs : scan_exp e rest with
      | none =>
        rw [hs] at h
        exact absurd h (by simp)
      | some f2 =>
        rw [hs] at h
        simp only [Option.map_some] at h
        injection h with hf
        rcases List.mem_cons.mp hmem with he | he
        · rw [← he, leq_exp_opt_refl e] at hle
          injection hle with hb
          rw [← hf, ← hb]
          simp
        · have hf2 : f2 = true := ih he f2 hs
          rw [← hf, hf2]
          simp

theorem leq_val_opt_refl_defined :
    ∀ v1 v2 : List Exp, (∀ e ∈ v1, e ∈ v2) →
      ∀ b : Bool, leq_val_opt v1 v2 = some b → b = true := by
  intro v1
  induction v1 with
  | nil =>
    intro v2 _ b h
    unfold leq_val_opt at h
    injection h with hb
    exact hb.symm
  | cons e1 rest ih =>
    intro v2 hsub b h
    unfold leq_val_opt at h
    cases hs : scan_exp e1 v2 with
    | none =>
      rw [hs] at h
      exact absurd h (by simp)
    | some f =>
      have hf : f = true := scan_exp_self e1 v2 (hsub e1 (List.mem_cons_self e1 rest)) f hs
      rw [hs, hf] at h
      exact ih v2 (fun e he => hsub e (List.mem_cons_of_mem e1 he)) b h

/-- C8 counterexample: `meet` is not total on values reachable from
normalization: the token `http:/x` normalizes to the missing-host pair
`('http', None)`, and meeting it with the same-scheme `('http', 'a.com')`
raises `AttributeError` (`None.split`) in either argument order, so the
claimed commutativity equation has no value there. -/
theorem meet_commutativity_cex :
    normalize_csp [str "http://a.com", str "http:/x"] (str "https://example.com") =
      CSPResult.vals [Exp.origin (str "http") (some (str "a.com")),
        Exp.origin (str "http") none] ∧
    meet_opt (Exp.origin (str "http") none)
      (Exp.origin (str "http") (some (str "a.com"))) = none ∧
    meet_opt (Exp.origin (str "http") (some (str "a.com")))
      (Exp.origin (str "http") none) = none := by decide

/-- C8 amended: in the exception-faithful model, `meet` is commutative as a
partial function on all policy expressions: it raises in one argument order
exactly when it raises in the other, and whenever it returns, both orders
return the same expression; `leq_exp` is antisymmetric wherever it is
defined, so the `return the first argument when e1 is below e2` rule never
breaks symmetry where the program yields a value. -/
theorem meet_opt_commutative_and_antisymm :
    (∀ e1 e2 : Exp, meet_opt e1 e2 = meet_opt e2 e1) ∧
    (∀ e1 e2 : Exp, leq_exp_opt e1 e2 = some true →
      leq_exp_opt e2 e1 = some true → e1 = e2) :=
  ⟨meet_opt_comm_aux, fun e1 e2 h12 h21 =>
    leq_exp_antisymm_aux e1 e2 (leq_exp_opt_agrees e1 e2 true h12)
      (leq_exp_opt_agrees e2 e1 true h21)⟩

/-- Witness for the C8 amended theorem at concrete expressions. -/
theorem meet_opt_commutative_and_antisymm_witness :
    meet_opt Exp.star Exp.none_ = meet_opt Exp.none_ Exp.star ∧
      Exp.star = Exp.star :=
  ⟨meet_opt_commutative_and_antisymm.1 Exp.star Exp.none_,
   meet_opt_commutative_and_antisymm.2 Exp.star Exp.star (by decide) (by decide)⟩

/-- C10 counterexample: `leq_val` is not reflexive on every reachable
expression list: the inner scan has no break, so on the list normalized from
the directive `https://b.org https:/x` the comparison of the present host
against the same-scheme missing host raises (`None.split`) instead of the
scan returning `True`. -/
theorem leq_val_reflexivity_cex :
    normalize_csp [str "https://b.org", str "https:/x"] (str "https://example.com") =
      CSPResult.vals [Exp.origin (str "https") (some (str "b.org")),
        Exp.origin (str "https") none] ∧
    leq_val_opt
      [Exp.origin (str "https") (some (str "b.org")), Exp.origin (str "https") none]
      [Exp.origin (str "https") (some (str "b.org")), Exp.origin (str "https") none]
      = none := by decide

/-- C10 amended: the empty expression list is a bottom element of `leq_val`
(the outer scan returns `True` without touching the other list, so this holds
for every second argument), and `leq_val` never returns `False` on a pair of
equal lists: it is reflexive on every list on which it returns; on reachable
lists mixing a missing-host and a same-scheme present-host expression it
raises instead of returning. -/
theorem leq_val_bot_and_refl_amended :
    (∀ v : List Exp, leq_val_opt [] v = some true) ∧
    (∀ (v : List Exp) (b : Bool), leq_val_opt v v = some b → b = true) := by
  constructor
  · intro v
    rfl
  · intro v b h
    exact leq_val_opt_refl_defined v v (fun e he => he) b h

/-- Witness for the C10 amended theorem at a concrete list. -/
theorem leq_val_bot_and_refl_amended_witness :
    leq_val_opt [] [Exp.star] = some true ∧ true = true :=
  ⟨leq_val_bot_and_refl_amended.1 [Exp.star],
   leq_val_bot_and_refl_amended.2 [Exp.star] true (by decide)⟩

/-- C7: `is_valid_origin` is total (the Python `AttributeError` on a missing
hostname is caught and yields `False`) and returns `true` exactly when the
scheme is http or https and a hostname is present, non-empty and does not
start with `*.`. -/
theorem is_valid_origin_spec (uo : ParseResult) :
    is_valid_origin uo = true ↔
      ((uo.scheme = str "http" ∨ uo.scheme = str "https") ∧
        ∃ h, hostname uo = some h ∧ h ≠ [] ∧ (str "*.").isPrefixOf h = false) := by
  unfold is_valid_origin
  cases hh : hostname uo with
  | none => simp
  | some h =>
    simp only [Bool.and_eq_true, Bool.or_eq_true, decide_eq_true_eq,
      Bool.not_eq_true', Option.some.injEq]
    constructor
    · rintro ⟨hs, hne, hw⟩
      exact ⟨hs, h, rfl, hne, hw⟩
    · rintro ⟨hs, h', hh', hne, hw⟩
      cases hh'
      exact ⟨hs, hne, hw⟩

/-- C9: the `tokens[1]` access in the `allow-from` branch of `normalize_xfo`
is always in range: whenever the lower-cased value starts with
`"allow-from "` (which contains a space), splitting on spaces yields at
least two tokens, so `normalize_xfo` is total on its string input. -/
theorem allow_from_guard_token_count (v : Str)
    (hpre : (str "allow-from ").isPrefixOf (lower v) = true) :
    2 ≤ (splitOnChar ' ' (lower v)).length := by
  rw [List.isPrefixOf_iff_prefix] at hpre
  obtain ⟨rest, hrest⟩ := hpre
  have h2 : lower v = str "allow-from" ++ ' ' :: rest := by rw [← hrest]; rfl
  have hpos : 0 < (splitOnChar ' ' rest).length :=
    List.length_pos.mpr (splitOnChar_ne_nil ' ' rest)
  rw [h2, splitOnChar_append ' ' (str "allow-from") rest (by decide)]
  simp only [List.length_cons]
  omega

/-- Witness for the C9 theorem at a concrete header value. -/
theorem allow_from_guard_token_count_witness :
    (str "allow-from ").isPrefixOf (lower (str "ALLOW-FROM https://a.com")) = true ∧
      2 ≤ (splitOnChar ' ' (lower (str "ALLOW-FROM https://a.com"))).length :=
  ⟨by decide, allow_from_guard_token_count (str "ALLOW-FROM https://a.com") (by decide)⟩

/-- C1 counterexample: Internet Explorer's translator ignores a present and
successfully normalized modern header. With legacy `deny` and modern `*` on
page origin `https://example.com`, the first normalized modern value is
`[Wildcard]`, yet the translator returns `[None]`. -/
theorem explorer_ignores_modern_cex :
    modern_values ⟨[str "deny"], [str "*"]⟩ (str "https://example.com") =
      [CSPResult.vals [Exp.star]] ∧
    t_explorer ⟨[str "deny"], [str "*"]⟩ (str "https://example.com") =
      CSPResult.vals [Exp.none_] ∧
    CSPResult.vals [Exp.none_] ≠ CSPResult.vals [Exp.star] := by decide

/-- C1 amended: the short-circuit on the first normalized modern value holds
for the Firefox, Chrome-family and Edge translators (remaining modern values
and all legacy values are ignored), while the Internet Explorer and Opera
Mini translators ignore the modern header instances entirely. -/
theorem modern_short_circuit_amended (p : Bundle) (orig : Str) (l : List Exp)
    (rest : List CSPResult)
    (hm : modern_values p orig = CSPResult.vals l :: rest) :
    t_firefox p orig = CSPResult.vals l ∧
    t_chrome p orig = CSPResult.vals l ∧
    t_edge p orig = CSPResult.vals l ∧
    (∀ csp2, t_explorer ⟨p.xfo, csp2⟩ orig = t_explorer p orig) ∧
    (∀ csp2, t_opera_mini ⟨p.xfo, csp2⟩ orig = t_opera_mini p orig) := by
  refine ⟨?_, ?_, ?_, fun csp2 => rfl, fun csp2 => rfl⟩
  · unfold t_firefox
    rw [hm]
  · unfold t_chrome
    rw [hm]
  · unfold t_edge
    rw [hm]

/-- Witness for the C1 amended theorem at a concrete bundle. -/
theorem modern_short_circuit_amended_witness :
    t_firefox ⟨[], [str "'none'"]⟩ (str "https://example.com") =
      CSPResult.vals [Exp.none_] :=
  (modern_short_circuit_amended ⟨[], [str "'none'"]⟩ (str "https://example.com")
    [Exp.none_] [] (by decide)).1

/-- C2 counterexample: a present modern header whose raw value is empty
yields the empty expression list, not the singleton `[Wildcard]`:
`EnforcedSemantics` can be an empty sequence. -/
theorem empty_modern_directive_cex :
    t_firefox ⟨[], [str ""]⟩ (str "https://example.com") = CSPResult.vals [] ∧
    CSPResult.vals [] ≠ CSPResult.vals [Exp.star] := by decide

/-- C2 amended: on a valid page origin the legacy-only translators always
return a singleton; when no header produced a value every translator
returns `[Wildcard]`; but a modern-capable translator returns the empty
list exactly when a modern header is present and its first normalized
directive list is empty. -/
theorem enforced_default_amended (p : Bundle) (orig : Str)
    (hvalid : is_valid_origin (urlparse (fix_origin orig)) = true) :
    (∃ e, t_explorer p orig = CSPResult.vals [e]) ∧
    (∃ e, t_opera_mini p orig = CSPResult.vals [e]) ∧
    (modern_values p orig = [] → legacy_values_split p orig = [] →
      t_firefox p orig = CSPResult.vals [Exp.star] ∧
      t_chrome p orig = CSPResult.vals [Exp.star]) ∧
    (modern_values p orig = [] → legacy_values p orig = [] →
      t_edge p orig = CSPResult.vals [Exp.star] ∧
      t_explorer p orig = CSPResult.vals [Exp.star] ∧
      t_opera_mini p orig = CSPResult.vals [Exp.star]) ∧
    (t_firefox p orig = CSPResult.vals [] ↔
      (∃ rest, modern_values p orig = CSPResult.vals [] :: rest)) ∧
    (t_chrome p orig = CSPResult.vals [] ↔
      (∃ rest, modern_values p orig = CSPResult.vals [] :: rest)) ∧
    (t_edge p orig = CSPResult.vals [] ↔
      (∃ rest, modern_values p orig = CSPResult.vals [] :: rest)) := by
  refine ⟨?_, ?_, ?_, ?_, ?_, ?_, ?_⟩
  · unfold t_explorer
    cases legacy_values p orig with
    | nil => exact ⟨Exp.star, rfl⟩
    | cons x xs => exact ⟨first_rule_edge x, rfl⟩
  · unfold t_opera_mini
    cases legacy_values p orig with
    | nil => exact ⟨Exp.star, rfl⟩
    | cons x xs => exact ⟨first_rule_opera x, rfl⟩
  · intro hm hl
    constructor
    · unfold t_firefox
      rw [hm, hl]
    · unfold t_chrome
      rw [hm, hl]
  · intro hm hl
    refine ⟨?_, ?_, ?_⟩
    · unfold t_edge
      rw [hm, hl]
    · unfold t_explorer
      rw [hl]
    · unfold t_opera_mini
      rw [hl]
  · unfold t_firefox
    cases hm : modern_values p orig with
    | nil =>
      cases hl : legacy_values_split p orig with
      | nil => simp
      | cons x xs => simp
    | cons r rest =>
      simp only [hm]
      constructor
      · intro hr
        exact ⟨rest, by rw [hr]⟩
      · rintro ⟨rest', hr⟩
        injection hr with h1 _
  · unfold t_chrome
    cases hm : modern_values p orig with
    | nil =>
      cases hl : legacy_values_split p orig with
      | nil => simp
      | cons x xs => simp
    | cons r rest =>
      simp only [hm]
      constructor
      · intro hr
        exact ⟨rest, by rw [hr]⟩
      · rintro ⟨rest', hr⟩
        injection hr with h1 _
  · unfold t_edge
    cases hm : modern_values p orig with
    | nil =>
      cases hl : legacy_values p orig with
      | nil => simp
      | cons x xs => simp
    | cons r rest =>
      simp only [hm]
      constructor
      · intro hr
        exact ⟨rest, by rw [hr]⟩
      · rintro ⟨rest', hr⟩
        injection hr with h1 _

/-- Witness for the C2 amended theorem at a concrete bundle. -/
theorem enforced_default_amended_witness :
    t_firefox ⟨[], []⟩ (str "https://example.com") = CSPResult.vals [Exp.star] :=
  ((enforced_default_amended ⟨[], []⟩ (str "https://example.com")
    (by decide)).2.2.1 rfl rfl).1

theorem modern_values_all_junk (p : Bundle) (orig : Str)
    (hinv : is_valid_origin (urlparse (fix_origin orig)) = false) :
    ∀ x ∈ modern_values p orig, x = .junk := by
  intro x hx
  unfold modern_values at hx
  rw [List.mem_filterMap] at hx
  obtain ⟨a, _, ha⟩ := hx
  rw [Option.map_eq_some'] at ha
  obtain ⟨pc, _, hnx⟩ := ha
  rw [normalize_csp_invalid pc orig hinv] at hnx
  exact hnx.symm

/-- C5 counterexample: with the invalid page origin `example.com` (no scheme)
and a present modern header, `t_firefox` returns the `Junk` sentinel itself
rather than a well-formed expression list. -/
theorem invalid_origin_junk_result_cex :
    is_valid_origin (urlparse (fix_origin (str "example.com"))) = false ∧
    t_firefox ⟨[], [str "*"]⟩ (str "example.com") = CSPResult.junk ∧
    CSPResult.junk ≠ CSPResult.vals [Exp.star] := by decide

/-- C5 amended: an invalid page origin is non-fatal and every normalization
yields `Junk`. Whenever the enforced value is computed from legacy headers
the junk folds to the most permissive `[Wildcard]`; but when a modern header
instance is present, the Firefox, Chrome-family and Edge translators return
the `Junk` sentinel itself, which is not an expression list. -/
theorem invalid_origin_nonfatal_amended (p : Bundle) (orig : Str)
    (hinv : is_valid_origin (urlparse (fix_origin orig)) = false) :
    t_explorer p orig = CSPResult.vals [Exp.star] ∧
    t_opera_mini p orig = CSPResult.vals [Exp.star] ∧
    (modern_values p orig = [] →
      t_firefox p orig = CSPResult.vals [Exp.star] ∧
      t_chrome p orig = CSPResult.vals [Exp.star] ∧
      t_edge p orig = CSPResult.vals [Exp.star]) ∧
    (∀ r rest, modern_values p orig = r :: rest →
      r = CSPResult.junk ∧
      t_firefox p orig = CSPResult.junk ∧
      t_chrome p orig = CSPResult.junk ∧
      t_edge p orig = CSPResult.junk) := by
  have hjunk := legacy_values_all_junk p orig hinv
  have hjunks := legacy_values_split_all_junk p orig hinv
  refine ⟨?_, ?_, ?_, ?_⟩
  · unfold t_explorer
    cases hl : legacy_values p orig with
    | nil => rfl
    | cons x xs =>
      rw [hjunk x (by rw [hl]; exact List.mem_cons_self x xs)]
      rfl
  · unfold t_opera_mini
    cases hl : legacy_values p orig with
    | nil => rfl
    | cons x xs =>
      rw [hjunk x (by rw [hl]; exact List.mem_cons_self x xs)]
      rfl
  · intro hm
    refine ⟨?_, ?_, ?_⟩
    · unfold t_firefox
      rw [hm]
      cases hl : legacy_values_split p orig with
      | nil => rfl
      | cons x xs =>
        show CSPResult.vals [List.foldl ff_step Exp.star (x :: xs)] =
          CSPResult.vals [Exp.star]
        rw [ff_fold_all_junk (x :: xs) (fun y hy => hjunks y (by rw [hl]; exact hy))]
    · unfold t_chrome
      rw [hm]
      cases hl : legacy_values_split p orig with
      | nil => rfl
      | cons x xs =>
        show CSPResult.vals [List.foldl chrome_step Exp.star (x :: xs)] =
          CSPResult.vals [Exp.star]
        rw [chrome_fold_all_junk (x :: xs) (fun y hy => hjunks y (by rw [hl]; exact hy))]
    · unfold t_edge
      rw [hm]
      cases hl : legacy_values p orig with
      | nil => rfl
      | cons x xs =>
        rw [hjunk x (by rw [hl]; exact List.mem_cons_self x xs)]
        rfl
  · intro r rest hm
    have hmemr : r ∈ modern_values p orig := by
      rw [hm]
      exact List.mem_cons_self r rest
    have hr : r = CSPResult.junk := modern_values_all_junk p orig hinv r hmemr
    refine ⟨hr, ?_, ?_, ?_⟩
    · unfold t_firefox
      rw [hm]
      exact hr
    · unfold t_chrome
      rw [hm]
      exact hr
    · unfold t_edge
      rw [hm]
      exact hr

/-- Witness for the C5 amended theorem at a concrete bundle: a legacy
`deny` under an invalid page origin still resolves to `[Wildcard]`. -/
theorem invalid_origin_nonfatal_amended_witness :
    t_explorer ⟨[str "deny"], []⟩ (str "example.com") = CSPResult.vals [Exp.star] :=
  (invalid_origin_nonfatal_amended ⟨[str "deny"], []⟩ (str "example.com")
    (by decide)).1

/-- C4: `is_inconsistent` holds exactly when a bucket has more than one value
(the buckets built by `find_inconsistencies` are deduplicated, so their length
counts distinct values), or both buckets are singletons whose values are not
mutually `leq_val`-related; with an empty bucket and no bucket above one
value it is false. -/
theorem is_inconsistent_characterization (s : Report) :
    is_inconsistent s = true ↔
      (1 < s.xfo.length ∨ 1 < s.csp.length ∨
        ∃ v1 v2, s.xfo = [v1] ∧ s.csp = [v2] ∧
          ¬(leq_val_py v1 v2 = true ∧ leq_val_py v2 v1 = true)) := by
  obtain ⟨xfo, csp⟩ := s
  unfold is_inconsistent
  rcases xfo with _ | ⟨a, _ | ⟨a2, xs⟩⟩ <;> rcases csp with _ | ⟨b, _ | ⟨b2, ys⟩⟩ <;>
    simp [List.length_cons]
  cases hab : leq_val_py a b <;> cases hba : leq_val_py b a <;> simp

/-- C6: when the page origin is valid and the lower-cased legacy value starts
with `"allow-from "`, `normalize_xfo` returns `AllowFrom` of the parsed token
exactly when the space-split produces precisely two tokens and the second
parses as a valid origin, and `AllowJunk` otherwise. -/
theorem allow_from_branch_spec (v o : Str)
    (hvalid : is_valid_origin (urlparse (fix_origin o)) = true)
    (hpre : (str "allow-from ").isPrefixOf (lower v) = true) :
    normalize_xfo v o =
      (if (splitOnChar ' ' (lower v)).length = 2 ∧
          is_valid_origin (urlparse (splitOnChar ' ' (lower v))[1]!) = true
       then XFORes.allowFrom (urlparse (splitOnChar ' ' (lower v))[1]!).scheme
              (hostname (urlparse (splitOnChar ' ' (lower v))[1]!))
       else XFORes.allowJunk) := by
  have hns : lower v ≠ str "sameorigin" := by
    intro e
    rw [e] at hpre
    exact absurd hpre (by decide)
  have hnd : lower v ≠ str "deny" := by
    intro e
    rw [e] at hpre
    exact absurd hpre (by decide)
  have hpre' := hpre
  rw [List.isPrefixOf_iff_prefix] at hpre'
  obtain ⟨rest, hrest⟩ := hpre'
  have hsplit : splitOnChar ' ' (lower v) = str "allow-from" :: splitOnChar ' ' rest := by
    have h2 : lower v = str "allow-from" ++ ' ' :: rest := by rw [← hrest]; rfl
    rw [h2, splitOnChar_append ' ' (str "allow-from") rest (by decide)]
  have h0 : (splitOnChar ' ' (lower v))[0]! = str "allow-from" := by
    rw [hsplit]
    simp
  unfold normalize_xfo
  rw [if_neg (fun hn => hn hvalid), if_neg hns, if_neg hnd, if_pos hpre]
  by_cases hc : (splitOnChar ' ' (lower v)).length = 2 ∧
      is_valid_origin (urlparse (splitOnChar ' ' (lower v))[1]!) = true
  · rw [if_pos ⟨hc.1, h0, hc.2⟩, if_pos hc]
  · rw [if_neg (fun hh => hc ⟨hh.1, hh.2.2⟩), if_neg hc]

/-- Witness for the C6 theorem at concrete inputs (the two-token valid case
and the malformed case). -/
theorem allow_from_branch_spec_witness :
    normalize_xfo (str "allow-from https://google.com") (str "https://example.com") =
      XFORes.allowFrom (str "https") (some (str "google.com")) := by
  have h := allow_from_branch_spec (str "allow-from https://google.com")
    (str "https://example.com") (by decide) (by decide)
  rw [h]
  decide

/-- C3: on Scenario B, `find_inconsistencies` followed by `is_inconsistent`
reports an inconsistency, and it stems purely from intra-bucket disagreement:
the legacy bucket holds more than one distinct value while the modern bucket
holds exactly one. -/
theorem scenario_b_intra_bucket_inconsistent :
    find_inconsistencies scenarioB (str "https://example.com") = some reportB ∧
    is_inconsistent reportB = true ∧
    1 < reportB.xfo.length ∧ reportB.csp.length = 1 := by decide
